import Mathlib

/-!
Verification development for the WASM JSON codec
(`src/wasm-regex-engine/src/lib.rs`): a bidirectional codec between
JSON text, the generic JSON tree (`serde_json::Value`), and the host
(JavaScript) dynamic value model, together with the two buffered
serializer types `MessageSerializer` and `StateSerializer` and the
standalone `quick*` functions.

The embedding below translates the Rust source into Lean:

* machine doubles (the host number type) are modelled as exact rational
  values (`ℚ`); every double arising in this development is exactly
  representable, and the one lossy primitive — Rust's `i as f64`
  integer-to-double cast — is modelled by the explicit round-to-nearest-
  even function `roundIntF64`;
* the two trusted external libraries (`serde_json`'s text parser/writer
  and `serde_wasm_bindgen`'s host-to-tree reflection) are modelled
  concretely, following their documented standard-JSON semantics, since
  the repository's functions are defined in terms of them;
* `Vec<u8>` buffers are modelled by `ByteBuf` (contents plus capacity),
  with `Vec::clear` keeping capacity, writes growing it, and
  `Vec::shrink_to` bounded shrinking, as in the Rust documentation;
* fallible Rust functions returning `Result<T, JsValue>` become
  `Except String T`.
-/

namespace SwarmCodec

/-! ## IEEE-754 binary64 rounding of integers

Rust's `i as f64` cast rounds the integer to the nearest double
(round-to-nearest, ties-to-even).  A double has a 53-bit significand, so
every integer of magnitude at most `2 ^ 53` is exact, and larger
integers are rounded to a multiple of a power of two. -/

/-- Binary digit count computed with explicit fuel, so that the kernel
can evaluate it on concrete inputs. -/
def natBitsAux : Nat → Nat → Nat
  | 0, _ => 0
  | fuel + 1, n => if n = 0 then 0 else natBitsAux fuel (n / 2) + 1

/-- Bit length of a natural number in the 64-bit range (the only range
the integer-to-double cast is ever applied to). -/
def natBits64 (n : Nat) : Nat := natBitsAux 64 n

/-- Round a natural number in the 64-bit range to the nearest IEEE-754
binary64 value (ties to even), returned as a natural number.  For
`n < 2 ^ 53` this is the identity; otherwise the bits below the 53-bit
significand are rounded away. -/
def roundNatF64 (n : Nat) : Nat :=
  if n < 2 ^ 53 then n
  else
    let e := natBits64 n - 53
    let q := n / 2 ^ e
    let r := n % 2 ^ e
    let half := 2 ^ (e - 1)
    if half < r ∨ (r = half ∧ q % 2 = 1) then (q + 1) * 2 ^ e else q * 2 ^ e

/-- Model of Rust's `i as f64` cast on 64-bit integers: round to the
nearest binary64 value, ties to even, symmetric in sign. -/
def roundIntF64 (i : Int) : Int :=
  if 0 ≤ i then (roundNatF64 i.toNat : Int) else -(roundNatF64 (-i).toNat : Int)

/-! ## The generic JSON tree: `serde_json::Value`

`serde_json`'s number type stores either an unsigned 64-bit integer, a
negative signed 64-bit integer, or a finite double.  `as_i64` succeeds
exactly on integers in the `i64` range; `as_f64` always succeeds (for
the integer cases it performs the rounding cast `n as f64`). -/

/-- Model of `serde_json::Number`: `posInt n` is the `PosInt(u64)` case
(invariant `n < 2 ^ 64`), `negInt i` the `NegInt(i64)` case (invariant
`-(2 ^ 63) ≤ i < 0`), `float q` the finite-double case. -/
inductive JsonNumber where
  | posInt (n : Nat)
  | negInt (i : Int)
  | float (q : ℚ)
deriving DecidableEq

/-- Model of `serde_json::Number::as_i64`: exact extraction for integers
in the `i64` range, `none` for doubles and out-of-range integers. -/
def JsonNumber.as_i64 : JsonNumber → Option Int
  | .posInt n => if n ≤ 2 ^ 63 - 1 then some (n : Int) else none
  | .negInt i => some i
  | .float _ => none

/-- Model of `serde_json::Number::as_f64`: always succeeds; integer
cases go through the rounding cast to double. -/
def JsonNumber.as_f64 : JsonNumber → Option ℚ
  | .posInt n => some ((roundIntF64 n : Int) : ℚ)
  | .negInt i => some ((roundIntF64 i : Int) : ℚ)
  | .float q => some q

/-- Model of `serde_json::Value` (the spec's GenericValue): a closed sum
over null, booleans, numbers, strings, ordered arrays, and
insertion-ordered string-keyed objects. -/
inductive JsonValue where
  | null
  | bool (b : Bool)
  | number (n : JsonNumber)
  | str (s : String)
  | arr (items : List JsonValue)
  | obj (pairs : List (String × JsonValue))

/-! ## The host dynamic value: `JsValue`

The host (JavaScript) value model, per the spec an opaque type with
primitive / array / keyed-mapping capabilities.  Host numbers are
doubles, modelled as exact rationals.  `abnormal` stands for host values
outside the JSON-bridgeable fragment (functions, symbols, BigInt), on
which the automatic reflection direction fails. -/

inductive JsValue where
  | null
  | boolean (b : Bool)
  | number (q : ℚ)
  | str (s : String)
  | array (items : List JsValue)
  | object (props : List (String × JsValue))
  | abnormal (tag : String)

/-- Model of `JsValue::as_string` as used by `batch_deserialize`:
`some` exactly on host strings. -/
def JsValue.as_string : JsValue → Option String
  | .str s => some s
  | _ => none

/-- Model of `js_sys::Reflect::set` on a plain host object held as an
insertion-ordered property list: setting an existing key updates it in
place, setting a fresh key appends it.  On a plain fresh object this
operation cannot fail, so it is total here. -/
def setProp (props : List (String × JsValue)) (key : String) (v : JsValue) :
    List (String × JsValue) :=
  if props.any (fun p => p.1 == key) then
    props.map (fun p => if p.1 == key then (key, v) else p)
  else props ++ [(key, v)]

/-! ## The manual bridge: `json_value_to_js` (lib.rs lines 7–39) -/

mutual

/-- Model of `json_value_to_js` (lib.rs lines 7–39): the manual
recursive conversion from the generic JSON tree to a host value,
bypassing the defective automatic bridging.  The `Number` case tries
`as_i64` first and converts the extracted integer with the rounding
cast `i as f64`; otherwise it falls back to `as_f64`. -/
def json_value_to_js : JsonValue → Except String JsValue
  | .null => .ok .null
  | .bool b => .ok (.boolean b)
  | .number n =>
    match n.as_i64 with
    | some i => .ok (.number ((roundIntF64 i : Int) : ℚ))
    | none =>
      match n.as_f64 with
      | some f => .ok (.number f)
      | none => .error "Invalid number"
  | .str s => .ok (.str s)
  | .arr items => (jsArrayItems items).map JsValue.array
  | .obj pairs => (jsObjectProps pairs []).map JsValue.object

/-- The `Array` loop of `json_value_to_js`: bridge each item in order
and push it onto the host array. -/
def jsArrayItems : List JsonValue → Except String (List JsValue)
  | [] => .ok []
  | item :: rest => do
    let js_item ← json_value_to_js item
    let js_rest ← jsArrayItems rest
    .ok (js_item :: js_rest)

/-- The `Object` loop of `json_value_to_js`: starting from the empty
host object (`acc`), bridge each pair's value in insertion order and
`Reflect::set` it under the pair's key. -/
def jsObjectProps : List (String × JsonValue) → List (String × JsValue) →
    Except String (List (String × JsValue))
  | [], acc => .ok acc
  | (key, val) :: rest, acc => do
    let js_val ← json_value_to_js val
    jsObjectProps rest (setProp acc key js_val)

end

/-! ## Model of the trusted JSON text writer: `serde_json::to_string`

The spec treats the tree-to-text writer as a trusted external library
with standard JSON semantics: compact mode emits no insignificant
whitespace, strings are escaped per JSON, doubles are printed in
decimal.  The real writer prints doubles as their shortest
round-tripping decimal; the exact decimal expansion used here agrees
with it on every double appearing in this development. -/

/-- Lower-case hexadecimal digit character. -/
def hexDigitChar (n : Nat) : Char := Char.ofNat (if n < 10 then 48 + n else 87 + n)

/-- JSON string escaping of one character, as the external writer does
it: `"`, `\`, and the named control escapes, with `\u00xx` for the
remaining control characters, and everything else verbatim. -/
def escapeChar (c : Char) : String :=
  if c = '"' then "\\\""
  else if c = '\\' then "\\\\"
  else if c = '\x08' then "\\b"
  else if c = '\x09' then "\\t"
  else if c = '\x0a' then "\\n"
  else if c = '\x0c' then "\\f"
  else if c = '\x0d' then "\\r"
  else if c.toNat < 0x20 then
    "\\u00" ++ String.singleton (hexDigitChar (c.toNat / 16)) ++
      String.singleton (hexDigitChar (c.toNat % 16))
  else String.singleton c

/-- A JSON string literal: quote, escape each character, quote. -/
def encodeJsonString (s : String) : String :=
  "\"" ++ String.join (s.data.map escapeChar) ++ "\""

/-- Decimal digits of the fractional part `num / den` (with
`num < den`), produced by repeated multiplication by ten; the fuel
bounds the expansion length (every finite double has a finite decimal
expansion of fewer than 1100 digits). -/
def fracDigits : Nat → Nat → Nat → String
  | 0, _, _ => ""
  | _, 0, _ => ""
  | fuel + 1, num, den =>
    let num10 := num * 10
    String.singleton (Char.ofNat (48 + num10 / den)) ++ fracDigits fuel (num10 % den) den

/-- Decimal rendering of a double: sign, integer part, fractional
digits, with a trailing `.0` for integral values, as the external
writer prints doubles. -/
def floatToString (q : ℚ) : String :=
  let sign := if q < 0 then "-" else ""
  let a := q.num.natAbs
  let d := q.den
  let ip := a / d
  let rem := a % d
  if rem = 0 then sign ++ toString ip ++ ".0"
  else sign ++ toString ip ++ "." ++ fracDigits 1100 rem d

/-- Text of one JSON number: `u64` and `i64` integers print in decimal,
doubles through `floatToString`. -/
def JsonNumber.toJsonText : JsonNumber → String
  | .posInt n => toString n
  | .negInt i => toString i
  | .float q => floatToString q

mutual

/-- Model of `serde_json::to_string` / `serde_json::to_writer` (the
compact writer): standard JSON text with no insignificant whitespace. -/
def toJsonString : JsonValue → String
  | .null => "null"
  | .bool b => if b then "true" else "false"
  | .number n => n.toJsonText
  | .str s => encodeJsonString s
  | .arr items => "[" ++ arrToJson items ++ "]"
  | .obj pairs => "\x7b" ++ objToJson pairs ++ "\x7d"

/-- Comma-joined compact rendering of array items. -/
def arrToJson : List JsonValue → String
  | [] => ""
  | [x] => toJsonString x
  | x :: y :: rest => toJsonString x ++ "," ++ arrToJson (y :: rest)

/-- Comma-joined compact rendering of object members. -/
def objToJson : List (String × JsonValue) → String
  | [] => ""
  | [(k, v)] => encodeJsonString k ++ ":" ++ toJsonString v
  | (k, v) :: p :: rest =>
    encodeJsonString k ++ ":" ++ toJsonString v ++ "," ++ objToJson (p :: rest)

end

/-- Indentation used by the pretty writer: two spaces per level. -/
def indentStr (n : Nat) : String := String.join (List.replicate n "  ")

mutual

/-- Model of `serde_json::to_string_pretty`: conventional two-space
indentation, one member per line, `": "` after keys. -/
def toPrettyAux : Nat → JsonValue → String
  | _, .null => "null"
  | _, .bool b => if b then "true" else "false"
  | _, .number n => n.toJsonText
  | _, .str s => encodeJsonString s
  | _, .arr [] => "[]"
  | ind, .arr (x :: xs) =>
    "[\n" ++ prettyArrItems (ind + 1) (x :: xs) ++ "\n" ++ indentStr ind ++ "]"
  | _, .obj [] => "\x7b\x7d"
  | ind, .obj (p :: ps) =>
    "\x7b\n" ++ prettyObjItems (ind + 1) (p :: ps) ++ "\n" ++ indentStr ind ++ "\x7d"

/-- Pretty rendering of array items, one per line. -/
def prettyArrItems : Nat → List JsonValue → String
  | _, [] => ""
  | ind, [x] => indentStr ind ++ toPrettyAux ind x
  | ind, x :: y :: rest =>
    indentStr ind ++ toPrettyAux ind x ++ ",\n" ++ prettyArrItems ind (y :: rest)

/-- Pretty rendering of object members, one per line. -/
def prettyObjItems : Nat → List (String × JsonValue) → String
  | _, [] => ""
  | ind, [(k, v)] => indentStr ind ++ encodeJsonString k ++ ": " ++ toPrettyAux ind v
  | ind, (k, v) :: p :: rest =>
    indentStr ind ++ encodeJsonString k ++ ": " ++ toPrettyAux ind v ++ ",\n" ++
      prettyObjItems ind (p :: rest)

end

/-- Model of `serde_json::to_string_pretty`, starting at indentation
level zero. -/
def toPrettyString (v : JsonValue) : String := toPrettyAux 0 v

/-! ## Model of the trusted JSON text parser: `serde_json::from_str`

Standard JSON grammar: the four whitespace characters, `null`, `true`,
`false`, escaped strings, numbers (no leading zeros), arrays, objects.
Integer literals are parsed exactly into the `u64` / negative-`i64`
number cases, falling back to the rounded double for out-of-range
magnitudes, as the real parser does.  Two deliberate modelling
simplifications, neither reachable from any value appearing in this
development: non-integer literals are taken at their exact rational
value (the real parser rounds to the nearest double), and `\u` escapes
for surrogate pairs as well as the negative-zero literal are not
modelled. -/

/-- Euclidean algorithm with explicit fuel, so that the kernel can
evaluate it (core's `Nat.gcd` is compiled by well-founded recursion and
does not reduce). -/
def gcdAux : Nat → Nat → Nat → Nat
  | 0, _, b => b
  | fuel + 1, a, b => if a = 0 then b else gcdAux fuel (b % a) a

/-- Kernel-computable greatest common divisor. -/
def gcdF (a b : Nat) : Nat := gcdAux (a + 1) a b

/-- Kernel-computable construction of the rational `n / d` in lowest
terms.  `Rat`'s own arithmetic goes through `Nat.gcd` and is opaque to
the kernel; this constructor divides by the fuel-computed gcd and
builds the reduced `Rat` directly, so concrete parses evaluate by
`rfl`. -/
def mkRatF (n : Int) (d : Nat) : ℚ :=
  if hd : d = 0 then 0
  else
    have hgeq : ∀ fuel a b : Nat, a < fuel → gcdAux fuel a b = Nat.gcd a b := by
      intro fuel
      induction fuel with
      | zero => omega
      | succ fuel ih =>
        intro a b hlt
        by_cases ha : a = 0
        · simp [gcdAux, ha]
        · rw [gcdAux, if_neg ha,
            ih (b % a) a (by have := Nat.mod_lt b (by omega : 0 < a); omega),
            Nat.gcd_rec a b]
    Rat.mk' (n / (gcdF n.natAbs d : Nat)) (d / gcdF n.natAbs d)
      (by
        rw [show gcdF n.natAbs d = Nat.gcd n.natAbs d from
          hgeq _ _ _ (Nat.lt_succ_self _)]
        have hgpos : 0 < Nat.gcd n.natAbs d := Nat.gcd_pos_of_pos_right _ (by omega)
        have hdvd : Nat.gcd n.natAbs d ∣ d := Nat.gcd_dvd_right _ _
        have := Nat.div_pos (Nat.le_of_dvd (by omega) hdvd) hgpos
        omega)
      (by
        rw [show gcdF n.natAbs d = Nat.gcd n.natAbs d from
          hgeq _ _ _ (Nat.lt_succ_self _)]
        have hgpos : 0 < Nat.gcd n.natAbs d := Nat.gcd_pos_of_pos_right _ (by omega)
        have hdvdn : ((Nat.gcd n.natAbs d : Nat) : Int) ∣ n :=
          Int.dvd_natAbs.1 (Int.natCast_dvd_natCast.2 (Nat.gcd_dvd_left _ _))
        rw [Int.natAbs_ediv n _ hdvdn]
        simpa using Nat.coprime_div_gcd_div_gcd (m := n.natAbs) (n := d) hgpos)

/-- JSON insignificant whitespace. -/
def isJsonWs (c : Char) : Bool := c = ' ' || c = '\t' || c = '\n' || c = '\x0d'

/-- Drop leading JSON whitespace. -/
def skipWs : List Char → List Char
  | [] => []
  | c :: cs => if isJsonWs c then skipWs cs else c :: cs

/-- Value of one hexadecimal digit character. -/
def hexVal (c : Char) : Option Nat :=
  if '0' ≤ c ∧ c ≤ '9' then some (c.toNat - 48)
  else if 'a' ≤ c ∧ c ≤ 'f' then some (c.toNat - 87)
  else if 'A' ≤ c ∧ c ≤ 'F' then some (c.toNat - 55)
  else none

/-- Body of a JSON string literal after the opening quote: contents up
to the closing quote, with the standard escapes decoded. -/
def parseStringBody : List Char → Except String (String × List Char)
  | [] => .error "unexpected end of input while parsing a string"
  | '"' :: rest => .ok ("", rest)
  | '\\' :: '"' :: rest => (parseStringBody rest).map (fun p => ("\"" ++ p.1, p.2))
  | '\\' :: '\\' :: rest => (parseStringBody rest).map (fun p => ("\\" ++ p.1, p.2))
  | '\\' :: '/' :: rest => (parseStringBody rest).map (fun p => ("/" ++ p.1, p.2))
  | '\\' :: 'b' :: rest => (parseStringBody rest).map (fun p => ("\x08" ++ p.1, p.2))
  | '\\' :: 'f' :: rest => (parseStringBody rest).map (fun p => ("\x0c" ++ p.1, p.2))
  | '\\' :: 'n' :: rest => (parseStringBody rest).map (fun p => ("\n" ++ p.1, p.2))
  | '\\' :: 'r' :: rest => (parseStringBody rest).map (fun p => ("\x0d" ++ p.1, p.2))
  | '\\' :: 't' :: rest => (parseStringBody rest).map (fun p => ("\t" ++ p.1, p.2))
  | '\\' :: 'u' :: a :: b :: c :: d :: rest =>
    match hexVal a, hexVal b, hexVal c, hexVal d with
    | some x1, some x2, some x3, some x4 =>
      let n := ((x1 * 16 + x2) * 16 + x3) * 16 + x4
      if n.isValidChar then
        (parseStringBody rest).map (fun p => (String.singleton (Char.ofNat n) ++ p.1, p.2))
      else .error "unpaired surrogate in unicode escape"
    | _, _, _, _ => .error "invalid hexadecimal digit in unicode escape"
  | '\\' :: _ => .error "invalid escape"
  | c :: rest =>
    if c.toNat < 0x20 then .error "control character in string"
    else (parseStringBody rest).map (fun p => (String.singleton c ++ p.1, p.2))

/-- Longest prefix of decimal digits, and the remaining input. -/
def takeDigits : List Char → List Char × List Char
  | [] => ([], [])
  | c :: cs =>
    if c.isDigit then
      let p := takeDigits cs
      (c :: p.1, p.2)
    else ([], c :: cs)

/-- Numeric value of a list of decimal digit characters. -/
def digitsToNat (ds : List Char) : Nat := ds.foldl (fun a c => a * 10 + (c.toNat - 48)) 0

/-- One JSON number literal: optional sign, integer part without
leading zeros, optional fraction, optional exponent.  Plain integer
literals land in the exact `u64` / `i64` cases when in range and are
otherwise rounded to a double; literals with a fraction or exponent
become doubles. -/
def parseNumber (cs : List Char) : Except String (JsonNumber × List Char) :=
  let signed : Bool × List Char :=
    match cs with
    | '-' :: r => (true, r)
    | _ => (false, cs)
  let neg := signed.1
  match takeDigits signed.2 with
  | ([], _) => .error "invalid number"
  | (ds, rest1) =>
    if 1 < ds.length ∧ ds.headD '0' = '0' then .error "invalid number: leading zero"
    else
      let ip := digitsToNat ds
      let fracStep : Except String (Option (List Char) × List Char) :=
        match rest1 with
        | '.' :: r2 =>
          match takeDigits r2 with
          | ([], _) => .error "invalid number: expected fraction digits"
          | (fds, r3) => .ok (some fds, r3)
        | _ => .ok (none, rest1)
      match fracStep with
      | .error e => .error e
      | .ok (ofrac, rest2) =>
        let expStep : Except String (Option (Bool × Nat) × List Char) :=
          match rest2 with
          | 'e' :: r3 | 'E' :: r3 =>
            let se : Bool × List Char :=
              match r3 with
              | '+' :: r4 => (false, r4)
              | '-' :: r4 => (true, r4)
              | _ => (false, r3)
            match takeDigits se.2 with
            | ([], _) => .error "invalid number: expected exponent digits"
            | (eds, r5) => .ok (some (se.1, digitsToNat eds), r5)
          | _ => .ok (none, rest2)
        match expStep with
        | .error e => .error e
        | .ok (oexp, rest3) =>
          match ofrac, oexp with
          | none, none =>
            if neg then
              if ip ≤ 2 ^ 63 then .ok (.negInt (-(ip : Int)), rest3)
              else .ok (.float ((roundIntF64 (-(ip : Int)) : Int) : ℚ), rest3)
            else
              if ip < 2 ^ 64 then .ok (.posInt ip, rest3)
              else .ok (.float ((roundNatF64 ip : Nat) : ℚ), rest3)
          | _, _ =>
            let k := (ofrac.map List.length).getD 0
            let fval := (ofrac.map digitsToNat).getD 0
            let mantissa : Int :=
              (if neg then -1 else 1) * ((ip * 10 ^ k + fval : Nat) : Int)
            let value : ℚ :=
              match oexp with
              | none => mkRatF mantissa (10 ^ k)
              | some ex =>
                if ex.1 then mkRatF mantissa (10 ^ k * 10 ^ ex.2)
                else mkRatF (mantissa * 10 ^ ex.2) (10 ^ k)
            .ok (.float value, rest3)

/-- Insertion into the parsed object map, as the external parser's
insertion-order-preserving map does it: an existing key is overwritten
in place, a fresh key is appended. -/
def jsonInsert (pairs : List (String × JsonValue)) (key : String) (v : JsonValue) :
    List (String × JsonValue) :=
  if pairs.any (fun p => p.1 == key) then
    pairs.map (fun p => if p.1 == key then (key, v) else p)
  else pairs ++ [(key, v)]

/-- Build the object map from parsed members in order. -/
def buildObj (entries : List (String × JsonValue)) : List (String × JsonValue) :=
  entries.foldl (fun acc kv => jsonInsert acc kv.1 kv.2) []

mutual

/-- One JSON value and the remaining input.  The fuel argument bounds
nesting (the real parser has a recursion limit as well); `from_str`
supplies fuel ample for its input. -/
def parseValue : Nat → List Char → Except String (JsonValue × List Char)
  | 0, _ => .error "recursion limit exceeded"
  | fuel + 1, cs =>
    match skipWs cs with
    | [] => .error "unexpected end of input"
    | 'n' :: 'u' :: 'l' :: 'l' :: rest => .ok (.null, rest)
    | 't' :: 'r' :: 'u' :: 'e' :: rest => .ok (.bool true, rest)
    | 'f' :: 'a' :: 'l' :: 's' :: 'e' :: rest => .ok (.bool false, rest)
    | '"' :: rest => (parseStringBody rest).map (fun p => (.str p.1, p.2))
    | '[' :: rest =>
      match skipWs rest with
      | ']' :: rest1 => .ok (.arr [], rest1)
      | cs1 => (parseArrayItems fuel cs1).map (fun p => (.arr p.1, p.2))
    | '\x7b' :: rest =>
      match skipWs rest with
      | '\x7d' :: rest1 => .ok (.obj [], rest1)
      | cs1 => (parseObjectItems fuel cs1).map (fun p => (.obj (buildObj p.1), p.2))
    | c :: rest =>
      if c = '-' ∨ c.isDigit then (parseNumber (c :: rest)).map (fun p => (.number p.1, p.2))
      else .error "expected value"

/-- Comma-separated array items up to the closing bracket. -/
def parseArrayItems : Nat → List Char → Except String (List JsonValue × List Char)
  | 0, _ => .error "recursion limit exceeded"
  | fuel + 1, cs => do
    let (v, rest) ← parseValue fuel cs
    match skipWs rest with
    | ',' :: rest2 => (parseArrayItems fuel rest2).map (fun p => (v :: p.1, p.2))
    | ']' :: rest2 => .ok ([v], rest2)
    | _ => .error "expected comma or closing bracket"

/-- Comma-separated object members up to the closing brace. -/
def parseObjectItems : Nat → List Char →
    Except String (List (String × JsonValue) × List Char)
  | 0, _ => .error "recursion limit exceeded"
  | fuel + 1, cs =>
    match skipWs cs with
    | '"' :: rest => do
      let (k, rest1) ← parseStringBody rest
      match skipWs rest1 with
      | ':' :: rest2 => do
        let (v, rest3) ← parseValue fuel rest2
        match skipWs rest3 with
        | ',' :: rest4 => (parseObjectItems fuel rest4).map (fun p => ((k, v) :: p.1, p.2))
        | '\x7d' :: rest4 => .ok ([(k, v)], rest4)
        | _ => .error "expected comma or closing brace"
      | _ => .error "expected colon"
    | _ => .error "key must be a string"

end

/-- Model of `serde_json::from_str`: parse one complete JSON document,
allowing surrounding whitespace and rejecting trailing input. -/
def from_str (s : String) : Except String JsonValue :=
  match parseValue (2 * s.length + 2) s.data with
  | .error e => .error e
  | .ok (v, rest) =>
    match skipWs rest with
    | [] => .ok v
    | _ => .error "trailing characters"

/-! ## Model of the automatic reflection: `serde_wasm_bindgen::from_value`

The host-to-tree direction, used only by the serialize paths (per the
spec, this direction is not subject to the empty-object defect).  A
host number whose value is an integer in the safe-integer range
`|n| ≤ 2 ^ 53 - 1` is reflected into the exact integer cases; other
numbers stay doubles.  Host values outside the JSON fragment
(`abnormal`) make reflection fail. -/

mutual

/-- Model of `serde_wasm_bindgen::from_value`, specialised to
producing a `serde_json::Value`. -/
def from_value : JsValue → Except String JsonValue
  | .null => .ok .null
  | .boolean b => .ok (.bool b)
  | .number q =>
    if q.den = 1 ∧ q.num.natAbs ≤ 2 ^ 53 - 1 then
      .ok (.number (if 0 ≤ q.num then .posInt q.num.toNat else .negInt q.num))
    else .ok (.number (.float q))
  | .str s => .ok (.str s)
  | .array items => (fromValueItems items).map JsonValue.arr
  | .object props => (fromValueProps props []).map JsonValue.obj
  | .abnormal tag => .error ("unsupported type " ++ tag)

/-- Reflection of a host array, element by element in order. -/
def fromValueItems : List JsValue → Except String (List JsonValue)
  | [] => .ok []
  | x :: xs => do
    let v ← from_value x
    let vs ← fromValueItems xs
    .ok (v :: vs)

/-- Reflection of a host object's entries in order into the
insertion-ordered JSON map. -/
def fromValueProps : List (String × JsValue) → List (String × JsonValue) →
    Except String (List (String × JsonValue))
  | [], acc => .ok acc
  | (k, x) :: rest, acc => do
    let v ← from_value x
    fromValueProps rest (jsonInsert acc k v)

end

/-! ## The reusable byte buffer: `Vec<u8>`

Contents plus capacity, following the `Vec` contract: `clear` keeps the
capacity, a write appends and grows the capacity to at least the new
length, `shrink_to m` never grows and keeps the capacity at least
`max(len, m)`.  The contents are held as the written text (every write
in this program writes JSON text, which is valid UTF-8); its byte
length is the vector's `len()`. -/

structure ByteBuf where
  data : String
  cap : Nat
deriving DecidableEq

/-- `Vec::len`: number of bytes held. -/
def ByteBuf.len (b : ByteBuf) : Nat := b.data.utf8ByteSize

/-- `Vec::clear`: drop the contents, keep the capacity. -/
def ByteBuf.clear (b : ByteBuf) : ByteBuf := ⟨"", b.cap⟩

/-- `serde_json::to_writer` into the vector: append the serialized
bytes, growing the capacity to at least the new length. -/
def ByteBuf.writeStr (b : ByteBuf) (s : String) : ByteBuf :=
  ⟨b.data ++ s, max b.cap (b.len + s.utf8ByteSize)⟩

/-- `Vec::shrink_to m`: reduce the capacity, never below
`max(len, m)` and never increasing it. -/
def ByteBuf.shrinkTo (b : ByteBuf) (m : Nat) : ByteBuf :=
  ⟨b.data, max b.len (min b.cap m)⟩

/-! ## `MessageSerializer` (lib.rs lines 42–168)

The spec's TextCodec: a reusable buffer pre-allocated at 4096 bytes.
Methods taking `&mut self` are modelled as state transformers returning
the updated instance; methods taking `&self` cannot mutate and return
the instance unchanged. -/

structure MessageSerializer where
  buffer : ByteBuf
deriving DecidableEq

namespace MessageSerializer

/-- `MessageSerializer::new` (lines 52–56): empty buffer with 4096
bytes of pre-allocated capacity. -/
def new : MessageSerializer := ⟨⟨"", 4096⟩⟩

/-- `serialize_message` (lines 66–79): reflect the host value into the
JSON tree, clear the buffer, write compact JSON into it, and return the
buffer's bytes decoded as text (`String::from_utf8` of a clone; the
writer's output is valid UTF-8, so the decode step cannot fail). -/
def serialize_message (self : MessageSerializer) (value : JsValue) :
    MessageSerializer × Except String String :=
  match from_value value with
  | .error e => (self, .error ("Serialization error: " ++ e))
  | .ok json_value =>
    let buf := self.buffer.clear.writeStr (toJsonString json_value)
    (⟨buf⟩, .ok buf.data)

/-- `deserialize_message` (lines 89–96): parse the text into the JSON
tree, then bridge it manually with `json_value_to_js`. -/
def deserialize_message (_self : MessageSerializer) (json_str : String) :
    Except String JsValue :=
  match from_str json_str with
  | .error e => .error ("JSON parse error: " ++ e)
  | .ok json_value => json_value_to_js json_value

/-- `batch_deserialize` (lines 102–118): deserialize each element in
input order, requiring each to be a host string; the first failure
aborts the whole call. -/
def batch_deserialize (_self : MessageSerializer) (json_strings : List JsValue) :
    Except String (List JsValue) :=
  match json_strings with
  | [] => .ok []
  | js_str :: rest => do
    let json_str ←
      match js_str.as_string with
      | some s => Except.ok s
      | none => Except.error "Expected string in batch"
    let json_value ←
      match from_str json_str with
      | .ok v => Except.ok v
      | .error e => Except.error ("Batch parse error: " ++ e)
    let js_value ← json_value_to_js json_value
    let results ← batch_deserialize _self rest
    pure (js_value :: results)

/-- `is_valid_json` (lines 122–124): a full parse, keeping only
success or failure. -/
def is_valid_json (_self : MessageSerializer) (json_str : String) : Bool :=
  (from_str json_str).isOk

/-- `estimate_size` (lines 128–137): reflect, clear the buffer, write
into it, return the buffer's length instead of its contents. -/
def estimate_size (self : MessageSerializer) (value : JsValue) :
    MessageSerializer × Except String Nat :=
  match from_value value with
  | .error e => (self, .error ("Size estimation error: " ++ e))
  | .ok json_value =>
    let buf := self.buffer.clear.writeStr (toJsonString json_value)
    (⟨buf⟩, .ok buf.len)

/-- `serialize_compact` (lines 141–144): delegates to
`serialize_message`. -/
def serialize_compact (self : MessageSerializer) (value : JsValue) :
    MessageSerializer × Except String String :=
  self.serialize_message value

/-- `serialize_pretty` (lines 148–154): takes `&self`, reflects and
pretty-prints without touching the instance buffer. -/
def serialize_pretty (self : MessageSerializer) (value : JsValue) :
    MessageSerializer × Except String String :=
  match from_value value with
  | .error e => (self, .error ("Pretty serialization error: " ++ e))
  | .ok json_value => (self, .ok (toPrettyString json_value))

/-- `clear_buffer` (lines 158–161): clear the contents and shrink the
capacity back toward the 4096-byte floor. -/
def clear_buffer (self : MessageSerializer) : MessageSerializer :=
  ⟨self.buffer.clear.shrinkTo 4096⟩

/-- `get_buffer_capacity` (lines 165–167). -/
def get_buffer_capacity (self : MessageSerializer) : Nat :=
  self.buffer.cap

end MessageSerializer

/-! ## Standalone free functions (lib.rs lines 171–188 and 284–301) -/

/-- `quick_serialize` (lines 172–178): reflect and serialize compactly
with no instance and no buffer reuse. -/
def quick_serialize (value : JsValue) : Except String String :=
  match from_value value with
  | .error e => .error ("Quick serialize error: " ++ e)
  | .ok json_value => .ok (toJsonString json_value)

/-- `quick_deserialize` (lines 183–188): parse and bridge with no
instance. -/
def quick_deserialize (json_str : String) : Except String JsValue :=
  match from_str json_str with
  | .error e => .error ("Quick parse error: " ++ e)
  | .ok json_value => json_value_to_js json_value

/-- `quick_serialize_state` (lines 285–291). -/
def quick_serialize_state (value : JsValue) : Except String String :=
  match from_value value with
  | .error e => .error ("Quick state serialize error: " ++ e)
  | .ok json_value => .ok (toJsonString json_value)

/-- `quick_deserialize_state` (lines 296–301). -/
def quick_deserialize_state (json_str : String) : Except String JsValue :=
  match from_str json_str with
  | .error e => .error ("Quick state parse error: " ++ e)
  | .ok json_value => json_value_to_js json_value

/-! ## `StateSerializer` (lib.rs lines 192–280)

The spec's StateCodec: an 8192-byte buffer and the reserved compression
flag. -/

structure StateSerializer where
  buffer : ByteBuf
  compression_enabled : Bool
deriving DecidableEq

namespace StateSerializer

/-- `StateSerializer::new` (lines 202–207): empty buffer with 8192
bytes of pre-allocated capacity, and the caller's compression flag. -/
def new (enable_compression : Bool) : StateSerializer :=
  ⟨⟨"", 8192⟩, enable_compression⟩

/-- `serialize_state` (lines 213–220): reflects and serializes with
`serde_json::to_string` directly — the instance buffer is not used on
this path (the method takes `&mut self` but never touches the
buffer). -/
def serialize_state (self : StateSerializer) (value : JsValue) :
    StateSerializer × Except String String :=
  match from_value value with
  | .error e => (self, .error ("State serialization error: " ++ e))
  | .ok json_value => (self, .ok (toJsonString json_value))

/-- `deserialize_state` (lines 226–231): parse and bridge manually. -/
def deserialize_state (_self : StateSerializer) (json_str : String) :
    Except String JsValue :=
  match from_str json_str with
  | .error e => .error ("State parse error: " ++ e)
  | .ok json_value => json_value_to_js json_value

/-- `batch_serialize_states` (lines 235–247): serialize each state in
order via `serialize_state`, collecting the serialized texts as host
strings; the first failure aborts the whole call. -/
def batch_serialize_states (self : StateSerializer) (states : List JsValue) :
    StateSerializer × Except String (List JsValue) :=
  match states with
  | [] => (self, .ok [])
  | state :: rest =>
    match self.serialize_state state with
    | (self1, .error e) => (self1, .error e)
    | (self1, .ok serialized) =>
      match batch_serialize_states self1 rest with
      | (self2, .error e) => (self2, .error e)
      | (self2, .ok results) => (self2, .ok (.str serialized :: results))

/-- `states_equal` (lines 251–253): exact equality of the two texts
(Rust `&str` equality is byte-for-byte equality of the UTF-8 bytes). -/
def states_equal (_self : StateSerializer) (state1 state2 : String) : Bool :=
  state1 == state2

/-- `get_state_size` (lines 257–266): reflect, clear the buffer, write
into it, return the length. -/
def get_state_size (self : StateSerializer) (value : JsValue) :
    StateSerializer × Except String Nat :=
  match from_value value with
  | .error e => (self, .error ("Size estimation error: " ++ e))
  | .ok json_value =>
    let buf := self.buffer.clear.writeStr (toJsonString json_value)
    (⟨buf, self.compression_enabled⟩, .ok buf.len)

/-- `compress_buffer` (lines 269–273): private helper, currently the
identity on the bytes (`data.to_vec()`). -/
def compress_buffer (_self : StateSerializer) (data : List UInt8) : List UInt8 :=
  data

/-- `decompress_str` (lines 276–279): private helper, currently the
identity on the text. -/
def decompress_str (_self : StateSerializer) (data : String) : Except String String :=
  .ok data

end StateSerializer

/-! ## The exported interface

The `js_name` attributes of the two `#[wasm_bindgen]` impl blocks, as
lists of exported method names (constructors aside). -/

/-- Methods exported on `MessageSerializer` (lib.rs lines 48–168). -/
def messageSerializerJsMethods : List String :=
  ["serializeMessage", "deserializeMessage", "batchDeserialize", "isValidJson",
   "estimateSize", "serializeCompact", "serializePretty", "clearBuffer",
   "getBufferCapacity"]

/-- Methods exported on `StateSerializer` (lib.rs lines 198–280);
`compress_buffer` and `decompress_str` are private and not exported. -/
def stateSerializerJsMethods : List String :=
  ["serializeState", "deserializeState", "batchSerializeStates", "statesEqual",
   "getStateSize"]

/-- The result of `serialize_state`, which does not depend on the
instance. -/
def stateSerializeText (v : JsValue) : Except String String :=
  match from_value v with
  | .error e => .error ("State serialization error: " ++ e)
  | .ok json_value => .ok (toJsonString json_value)

/-- The results list of `batch_serialize_states`, which does not depend
on the instance. -/
def batchStatesResult : List JsValue → Except String (List JsValue)
  | [] => .ok []
  | state :: rest =>
    match stateSerializeText state with
    | .error e => .error e
    | .ok serialized =>
      match batchStatesResult rest with
      | .error e => .error e
      | .ok results => .ok (.str serialized :: results)

/-- The spec-side description of the `Object` bridging: each pair's
value recursively bridged, pairs kept in insertion order. -/
def bridgedPairs : List (String × JsonValue) → Except String (List (String × JsValue))
  | [] => .ok []
  | (key, val) :: rest => do
    let v ← json_value_to_js val
    let l ← bridgedPairs rest
    .ok ((key, v) :: l)

/-- The per-element pipeline of `batch_deserialize`: require a host
string, parse it, bridge it. -/
def batchElem (x : JsValue) : Except String JsValue :=
  match x.as_string with
  | none => .error "Expected string in batch"
  | some json_str =>
    match from_str json_str with
    | .error e => .error ("Batch parse error: " ++ e)
    | .ok json_value => json_value_to_js json_value

/-! ## Helper lemmas -/

theorem roundNatF64_eq_self {n : Nat} (h : n ≤ 2 ^ 53) : roundNatF64 n = n := by
  rcases Nat.lt_or_ge n (2 ^ 53) with hlt | hge
  · unfold roundNatF64
    rw [if_pos hlt]
  · have heq : n = 2 ^ 53 := le_antisymm h hge
    subst heq
    decide

theorem roundIntF64_eq_self {i : Int} (h : i.natAbs ≤ 2 ^ 53) : roundIntF64 i = i := by
  unfold roundIntF64
  rcases le_or_lt 0 i with hpos | hneg
  · rw [if_pos hpos, roundNatF64_eq_self (by omega)]
    omega
  · rw [if_neg (by omega), roundNatF64_eq_self (by omega)]
    omega

theorem gcdAux_eq_gcd : ∀ (fuel a b : Nat), a < fuel → gcdAux fuel a b = Nat.gcd a b := by
  intro fuel
  induction fuel with
  | zero => omega
  | succ fuel ih =>
    intro a b hlt
    by_cases ha : a = 0
    · simp [gcdAux, ha]
    · rw [gcdAux, if_neg ha, ih (b % a) a (by have := Nat.mod_lt b (by omega : 0 < a); omega),
        Nat.gcd_rec a b]

theorem gcdF_eq_gcd (a b : Nat) : gcdF a b = Nat.gcd a b :=
  gcdAux_eq_gcd (a + 1) a b (Nat.lt_succ_self a)

theorem mkRatF_eq_div (n : Int) (d : Nat) : mkRatF n d = (n : ℚ) / (d : ℚ) := by
  unfold mkRatF
  by_cases hd : d = 0
  · simp [hd]
  · rw [dif_neg hd]
    dsimp only [letFun]
    rw [Rat.mk'_eq_divInt, gcdF_eq_gcd]
    have hgpos : 0 < Nat.gcd n.natAbs d := Nat.gcd_pos_of_pos_right _ (by omega)
    have hgz : ((Nat.gcd n.natAbs d : Nat) : Int) ≠ 0 := by exact_mod_cast hgpos.ne'
    have hdvdn : ((Nat.gcd n.natAbs d : Nat) : Int) ∣ n :=
      Int.dvd_natAbs.1 (Int.natCast_dvd_natCast.2 (Nat.gcd_dvd_left _ _))
    have hdvdd : Nat.gcd n.natAbs d ∣ d := Nat.gcd_dvd_right _ _
    have h1 : n / (Nat.gcd n.natAbs d : Int) * (Nat.gcd n.natAbs d : Int) = n :=
      Int.ediv_mul_cancel hdvdn
    have h2 : ((d / Nat.gcd n.natAbs d : Nat) : Int) * (Nat.gcd n.natAbs d : Int) = (d : Int) := by
      exact_mod_cast Nat.div_mul_cancel hdvdd
    have h3 : ((d : Nat) : ℚ) = (((d : Nat) : Int) : ℚ) := by push_cast; rfl
    rw [h3, ← Rat.divInt_eq_div]
    conv_rhs => rw [← h1, ← h2]
    exact (Rat.divInt_mul_right hgz).symm

example : json_value_to_js (.obj [("a", .obj [("b", .number (.posInt 1))])]) =
    .ok (.object [("a", .object [("b", .number 1)])]) := rfl

example : json_value_to_js (.number (.posInt 9007199254740993)) =
    .ok (.number 9007199254740992) := rfl

example : from_str "\x7b\"a\": [1, 1.5, true], \"b\": null\x7d" =
    .ok (.obj [("a", .arr [.number (.posInt 1), .number (.float (mkRatF 3 2)), .bool true]),
               ("b", .null)]) := by
  rfl

example : (from_str "\x7binvalid").isOk = false := rfl
example : (from_str "").isOk = false := rfl
example : (from_str "\x7b\x7d").isOk = true := rfl

theorem serialize_pretty_fst (s : MessageSerializer) (v : JsValue) :
    (s.serialize_pretty v).1 = s := by
  unfold MessageSerializer.serialize_pretty
  cases from_value v <;> rfl

theorem serialize_message_cap_mono (s : MessageSerializer) (v : JsValue) :
    s.buffer.cap ≤ (s.serialize_message v).1.buffer.cap := by
  unfold MessageSerializer.serialize_message
  cases from_value v with
  | error e => exact Nat.le_refl _
  | ok jv => exact Nat.le_max_left _ _

theorem estimate_size_cap_mono (s : MessageSerializer) (v : JsValue) :
    s.buffer.cap ≤ (s.estimate_size v).1.buffer.cap := by
  unfold MessageSerializer.estimate_size
  cases from_value v with
  | error e => exact Nat.le_refl _
  | ok jv => exact Nat.le_max_left _ _

theorem serialize_state_eq (t : StateSerializer) (v : JsValue) :
    t.serialize_state v = (t, stateSerializeText v) := by
  unfold StateSerializer.serialize_state stateSerializeText
  cases from_value v <;> rfl

theorem batch_serialize_states_eq (t : StateSerializer) (xs : List JsValue) :
    t.batch_serialize_states xs = (t, batchStatesResult xs) := by
  induction xs generalizing t with
  | nil => rfl
  | cons x rest ih =>
    unfold StateSerializer.batch_serialize_states batchStatesResult
    rw [serialize_state_eq]
    cases stateSerializeText x with
    | error e => rfl
    | ok serialized =>
      dsimp only
      rw [ih]
      cases batchStatesResult rest <;> rfl

theorem get_state_size_cap_mono (t : StateSerializer) (v : JsValue) :
    t.buffer.cap ≤ (t.get_state_size v).1.buffer.cap := by
  unfold StateSerializer.get_state_size
  cases from_value v with
  | error e => exact Nat.le_refl _
  | ok jv => exact Nat.le_max_left _ _

theorem exceptBind_ok {ε α β : Type} (a : α) (f : α → Except ε β) :
    (Except.ok a >>= f) = f a := rfl

theorem exceptBind_error {ε α β : Type} (e : ε) (f : α → Except ε β) :
    ((Except.error e : Except ε α) >>= f) = Except.error e := rfl

theorem exceptMap_ok {ε α β : Type} (f : α → β) (a : α) :
    Except.map f (Except.ok a : Except ε α) = Except.ok (f a) := rfl

theorem exceptMap_error {ε α β : Type} (f : α → β) (e : ε) :
    Except.map f (Except.error e : Except ε α) = Except.error e := rfl

theorem setProp_fresh (acc : List (String × JsValue)) (key : String) (v : JsValue)
    (h : ∀ p ∈ acc, p.1 ≠ key) : setProp acc key v = acc ++ [(key, v)] := by
  have hc : ¬(acc.any (fun p => p.1 == key) = true) := by
    rw [List.any_eq_true]
    rintro ⟨p, hp, hbeq⟩
    exact h p hp (by simpa using hbeq)
  unfold setProp
  rw [if_neg hc]

theorem jsObjectProps_append (pairs : List (String × JsonValue)) :
    ∀ acc : List (String × JsValue),
      (pairs.map Prod.fst).Nodup →
      (∀ q ∈ acc, ∀ p ∈ pairs, q.1 ≠ p.1) →
      jsObjectProps pairs acc = (bridgedPairs pairs).map (fun l => acc ++ l) := by
  induction pairs with
  | nil =>
    intro acc _ _
    simp [jsObjectProps, bridgedPairs, exceptMap_ok]
  | cons kv rest ih =>
    intro acc hnd hdisj
    obtain ⟨key, val⟩ := kv
    unfold jsObjectProps bridgedPairs
    cases hbr : json_value_to_js val with
    | error e => rfl
    | ok v =>
      have hfresh : ∀ p ∈ acc, p.1 ≠ key := by
        intro p hp
        exact hdisj p hp (key, val) (List.mem_cons_self _ _)
      rw [exceptBind_ok, exceptBind_ok, setProp_fresh acc key v hfresh]
      have hnd1 : (rest.map Prod.fst).Nodup := by
        rw [List.map_cons] at hnd
        exact hnd.of_cons
      have hkey : key ∉ rest.map Prod.fst := by
        rw [List.map_cons] at hnd
        exact (List.nodup_cons.mp hnd).1
      have hdisj1 : ∀ q ∈ acc ++ [(key, v)], ∀ p ∈ rest, q.1 ≠ p.1 := by
        intro q hq p hp
        rcases List.mem_append.mp hq with hqa | hqk
        · exact hdisj q hqa p (List.mem_cons_of_mem _ hp)
        · have : q = (key, v) := List.mem_singleton.mp hqk
          subst this
          intro hcontra
          apply hkey
          have : p.1 ∈ rest.map Prod.fst := List.mem_map_of_mem Prod.fst hp
          simpa [← hcontra] using this
      rw [ih (acc ++ [(key, v)]) hnd1 hdisj1]
      cases bridgedPairs rest <;>
        simp [exceptMap_ok, exceptMap_error, exceptBind_ok, exceptBind_error]

theorem bridgedPairs_map_fst (pairs : List (String × JsonValue)) :
    ∀ l, bridgedPairs pairs = .ok l → l.map Prod.fst = pairs.map Prod.fst := by
  induction pairs with
  | nil =>
    intro l h
    cases h
    rfl
  | cons kv rest ih =>
    intro l h
    obtain ⟨key, val⟩ := kv
    unfold bridgedPairs at h
    cases hbr : json_value_to_js val with
    | error e => rw [hbr] at h; cases h
    | ok v =>
      rw [hbr] at h
      cases hbp : bridgedPairs rest with
      | error e => rw [hbp] at h; cases h
      | ok l1 =>
        rw [hbp] at h
        cases h
        simp [ih l1 hbp]

/-! ## Claims -/

/-- C1: for every `Object` tree, the manual bridge applied by the
deserialize direction builds the host keyed mapping by recursively
bridging each pair's value and setting it under the pair's key in
insertion order: the result is exactly the insertion-ordered list of
bridged pairs, its keys are exactly the object's keys in order, and a
non-empty object never collapses to an empty mapping (in particular no
nested object of depth at least two does). -/
theorem claim_object_bridging (pairs : List (String × JsonValue))
    (hnd : (pairs.map Prod.fst).Nodup) :
    json_value_to_js (.obj pairs) = (bridgedPairs pairs).map JsValue.object ∧
    ∀ l, bridgedPairs pairs = .ok l →
      l.map Prod.fst = pairs.map Prod.fst ∧ (pairs ≠ [] → l ≠ []) := by
  constructor
  · show (jsObjectProps pairs []).map JsValue.object = _
    rw [jsObjectProps_append pairs [] hnd (by intro q hq; cases hq)]
    cases bridgedPairs pairs <;> simp [exceptMap_ok, exceptMap_error]
  · intro l hl
    refine ⟨bridgedPairs_map_fst pairs l hl, ?_⟩
    intro hp hcontra
    apply hp
    have hfst := bridgedPairs_map_fst pairs l hl
    rw [hcontra] at hfst
    exact List.map_eq_nil_iff.mp hfst.symm

/-- Witness for C1 at a concrete non-empty object of nesting depth two
with one key at each level plus a sibling key. -/
theorem claim_object_bridging_witness :
    (([("outer", JsonValue.obj [("inner", JsonValue.bool true)]),
       ("k", JsonValue.number (.posInt 1))].map Prod.fst).Nodup) ∧
    (json_value_to_js (.obj [("outer", JsonValue.obj [("inner", JsonValue.bool true)]),
                             ("k", JsonValue.number (.posInt 1))]) =
      (bridgedPairs [("outer", JsonValue.obj [("inner", JsonValue.bool true)]),
                     ("k", JsonValue.number (.posInt 1))]).map JsValue.object ∧
     ∀ l, bridgedPairs [("outer", JsonValue.obj [("inner", JsonValue.bool true)]),
                        ("k", JsonValue.number (.posInt 1))] = .ok l →
       l.map Prod.fst = [("outer", JsonValue.obj [("inner", JsonValue.bool true)]),
                         ("k", JsonValue.number (.posInt 1))].map Prod.fst ∧
       ([("outer", JsonValue.obj [("inner", JsonValue.bool true)]),
         ("k", JsonValue.number (.posInt 1))] ≠
           ([] : List (String × JsonValue)) → l ≠ [])) :=
  ⟨by decide, claim_object_bridging _ (by decide)⟩

theorem batch_deserialize_cons (s : MessageSerializer) (x : JsValue) (rest : List JsValue) :
    s.batch_deserialize (x :: rest) =
      batchElem x >>= fun v =>
        s.batch_deserialize rest >>= fun results => pure (v :: results) := by
  conv_lhs => unfold MessageSerializer.batch_deserialize
  unfold batchElem
  cases hx : x.as_string with
  | none => rfl
  | some t =>
    dsimp only [exceptBind_ok, exceptBind_error]
    cases from_str t with
    | error e => rfl
    | ok jv =>
      cases json_value_to_js jv with
      | error e => rfl
      | ok v => rfl

theorem batchElem_str_ok_iff (s : MessageSerializer) (t : String) (v : JsValue) :
    batchElem (.str t) = .ok v ↔ s.deserialize_message t = .ok v := by
  unfold batchElem MessageSerializer.deserialize_message
  dsimp only [JsValue.as_string]
  cases from_str t with
  | error e => refine ⟨fun h => ?_, fun h => ?_⟩ <;> cases h
  | ok jv => exact Iff.rfl

theorem batch_all_ok (s : MessageSerializer) (inputs : List JsValue)
    (h : ∀ x ∈ inputs, ∃ v, batchElem x = .ok v) :
    ∃ outs, s.batch_deserialize inputs = .ok outs ∧ outs.length = inputs.length ∧
      ∀ i (h1 : i < inputs.length) (h2 : i < outs.length),
        batchElem (inputs.get ⟨i, h1⟩) = .ok (outs.get ⟨i, h2⟩) := by
  induction inputs with
  | nil =>
    refine ⟨[], rfl, rfl, ?_⟩
    intro i h1 _
    simp at h1
  | cons x rest ih =>
    obtain ⟨v, hv⟩ := h x (List.mem_cons_self _ _)
    obtain ⟨outs, houts, hlen, hpt⟩ := ih (fun y hy => h y (List.mem_cons_of_mem _ hy))
    refine ⟨v :: outs, ?_, by simp [hlen], ?_⟩
    · rw [batch_deserialize_cons, hv, exceptBind_ok, houts, exceptBind_ok]
      rfl
    · intro i h1 h2
      cases i with
      | zero => simpa using hv
      | succ n =>
        have h1n : n < rest.length := by simpa using h1
        have h2n : n < outs.length := by simpa using h2
        simpa using hpt n h1n h2n

theorem batch_first_failure (s : MessageSerializer) (e : String) :
    ∀ (pre : List JsValue) (x : JsValue) (suf : List JsValue),
      (∀ y ∈ pre, ∃ v, batchElem y = .ok v) →
      batchElem x = .error e →
      s.batch_deserialize (pre ++ x :: suf) = .error e := by
  intro pre
  induction pre with
  | nil =>
    intro x suf _ hx
    rw [List.nil_append, batch_deserialize_cons, hx, exceptBind_error]
  | cons y pre1 ih =>
    intro x suf hpre hx
    obtain ⟨vy, hvy⟩ := hpre y (List.mem_cons_self _ _)
    rw [List.cons_append, batch_deserialize_cons, hvy, exceptBind_ok,
      ih x suf (fun z hz => hpre z (List.mem_cons_of_mem _ hz)) hx, exceptBind_error]

/-- C4: on input made of host strings that each parse and bridge,
`batchDeserialize` succeeds with exactly one host value per input in
input order, the i-th output being the `deserializeMessage` of the i-th
input; and on input whose first failing element is `x` (not a string,
or failing to parse or bridge), the whole call returns an error — no
partial results — and the result does not depend on the elements after
`x`, which are never processed. -/
theorem claim_batch_deserialize (s : MessageSerializer) (inputs : List JsValue)
    (h : ∀ x ∈ inputs, ∃ t v, x = JsValue.str t ∧ s.deserialize_message t = .ok v) :
    (∃ outs, s.batch_deserialize inputs = .ok outs ∧ outs.length = inputs.length ∧
       ∀ i (h1 : i < inputs.length) (h2 : i < outs.length),
         ∃ t, inputs.get ⟨i, h1⟩ = JsValue.str t ∧
           s.deserialize_message t = .ok (outs.get ⟨i, h2⟩)) ∧
    (∀ (pre : List JsValue) (x : JsValue) (suf1 suf2 : List JsValue),
       (∀ y ∈ pre, ∃ t v, y = JsValue.str t ∧ s.deserialize_message t = .ok v) →
       (¬∃ t v, x = JsValue.str t ∧ s.deserialize_message t = .ok v) →
       (s.batch_deserialize (pre ++ x :: suf1)).isOk = false ∧
       s.batch_deserialize (pre ++ x :: suf1) = s.batch_deserialize (pre ++ x :: suf2)) := by
  have elem_of : ∀ x, (∃ t v, x = JsValue.str t ∧ s.deserialize_message t = .ok v) →
      ∃ v, batchElem x = .ok v := by
    rintro x ⟨t, v, rfl, hdm⟩
    exact ⟨v, (batchElem_str_ok_iff s t v).mpr hdm⟩
  constructor
  · obtain ⟨outs, houts, hlen, hpt⟩ := batch_all_ok s inputs (fun x hx => elem_of x (h x hx))
    refine ⟨outs, houts, hlen, ?_⟩
    intro i h1 h2
    obtain ⟨t, v, hstr, _⟩ := h (inputs.get ⟨i, h1⟩) (inputs.get_mem _ _)
    refine ⟨t, hstr, ?_⟩
    have := hpt i h1 h2
    rw [hstr] at this
    exact (batchElem_str_ok_iff s t _).mp this
  · intro pre x suf1 suf2 hpre hx
    have hxe : ∃ e, batchElem x = .error e := by
      cases hbe : batchElem x with
      | error e => exact ⟨e, rfl⟩
      | ok v =>
        exfalso
        apply hx
        cases x with
        | str t => exact ⟨t, v, rfl, (batchElem_str_ok_iff s t v).mp hbe⟩
        | null => cases hbe
        | boolean b => cases hbe
        | number q => cases hbe
        | array items => cases hbe
        | object props => cases hbe
        | abnormal tag => cases hbe
    obtain ⟨e, he⟩ := hxe
    have hp : ∀ y ∈ pre, ∃ v, batchElem y = .ok v := fun y hy => elem_of y (hpre y hy)
    rw [batch_first_failure s e pre x suf1 hp he, batch_first_failure s e pre x suf2 hp he]
    exact ⟨rfl, rfl⟩

/-- Witness for C4 at two concrete valid JSON strings. -/
theorem claim_batch_deserialize_witness :
    (∀ x ∈ [JsValue.str "1", JsValue.str "true"], ∃ t v, x = JsValue.str t ∧
        MessageSerializer.new.deserialize_message t = .ok v) ∧
    ((∃ outs, MessageSerializer.new.batch_deserialize [JsValue.str "1", JsValue.str "true"] =
        .ok outs ∧
        outs.length = [JsValue.str "1", JsValue.str "true"].length ∧
        ∀ i (h1 : i < [JsValue.str "1", JsValue.str "true"].length) (h2 : i < outs.length),
          ∃ t, [JsValue.str "1", JsValue.str "true"].get ⟨i, h1⟩ = JsValue.str t ∧
            MessageSerializer.new.deserialize_message t = .ok (outs.get ⟨i, h2⟩)) ∧
     (∀ (pre : List JsValue) (x : JsValue) (suf1 suf2 : List JsValue),
       (∀ y ∈ pre, ∃ t v, y = JsValue.str t ∧
           MessageSerializer.new.deserialize_message t = .ok v) →
       (¬∃ t v, x = JsValue.str t ∧ MessageSerializer.new.deserialize_message t = .ok v) →
       (MessageSerializer.new.batch_deserialize (pre ++ x :: suf1)).isOk = false ∧
       MessageSerializer.new.batch_deserialize (pre ++ x :: suf1) =
         MessageSerializer.new.batch_deserialize (pre ++ x :: suf2))) :=
  have h : ∀ x ∈ [JsValue.str "1", JsValue.str "true"], ∃ t v, x = JsValue.str t ∧
      MessageSerializer.new.deserialize_message t = .ok v := by
    intro x hx
    simp only [List.mem_cons, List.not_mem_nil, or_false] at hx
    rcases hx with rfl | rfl
    · exact ⟨"1", .number 1, rfl, rfl⟩
    · exact ⟨"true", .boolean true, rfl, rfl⟩
  ⟨h, claim_batch_deserialize MessageSerializer.new [JsValue.str "1", JsValue.str "true"] h⟩

/-- C5: for every host value `v` and every starting instance,
`estimateSize v` succeeds exactly when `serializeMessage v` succeeds
(both fail only at the shared reflection step; the write step cannot
fail), and on success it returns exactly the byte length of the text
`serializeMessage v` returns. -/
theorem claim_estimate_size_is_serialize_length :
    ∀ (s : MessageSerializer) (v : JsValue),
      (s.estimate_size v).2.toOption =
        ((s.serialize_message v).2.toOption).map String.utf8ByteSize ∧
      ((s.estimate_size v).2.isOk ↔ (s.serialize_message v).2.isOk) := by
  intro s v
  unfold MessageSerializer.estimate_size MessageSerializer.serialize_message
  cases from_value v with
  | error e => exact ⟨rfl, Iff.rfl⟩
  | ok jv => exact ⟨rfl, Iff.rfl⟩

/-- C7: `statesEqual` is exact byte-for-byte equality of the two texts
(Lean `String` equality coincides with equality of the UTF-8 byte
sequences, which is what Rust's `&str` equality compares): it is true
on identical texts, true only on identical texts, and in particular
false on the two semantically equivalent but differently ordered JSON
objects of the spec's example. -/
theorem claim_states_equal_byte_identity :
    ∀ (t : StateSerializer) (a b : String),
      (t.states_equal a b = true ↔ a = b) ∧
      t.states_equal a a = true ∧
      t.states_equal "\x7b\"a\":1,\"b\":2\x7d" "\x7b\"b\":2,\"a\":1\x7d" = false := by
  intro t a b
  refine ⟨?_, ?_, ?_⟩
  · exact beq_iff_eq
  · exact beq_self_eq_true a
  · rfl

/-- C8: the compression flag is inert: `compress_buffer` is the
identity on its bytes and `decompress_str` the identity on its text for
either flag value, and every `StateSerializer` operation produces the
same value and the same buffer whether the instance was constructed
with the flag on or off. -/
theorem claim_compression_flag_inert :
    ∀ (buf : ByteBuf) (d : List UInt8) (txt : String) (v : JsValue)
      (xs : List JsValue) (a b : String),
      (StateSerializer.mk buf true).compress_buffer d = d ∧
      (StateSerializer.mk buf false).compress_buffer d = d ∧
      (StateSerializer.mk buf true).decompress_str txt = .ok txt ∧
      (StateSerializer.mk buf false).decompress_str txt = .ok txt ∧
      ((StateSerializer.mk buf true).serialize_state v).2 =
        ((StateSerializer.mk buf false).serialize_state v).2 ∧
      ((StateSerializer.mk buf true).serialize_state v).1.buffer =
        ((StateSerializer.mk buf false).serialize_state v).1.buffer ∧
      (StateSerializer.mk buf true).deserialize_state a =
        (StateSerializer.mk buf false).deserialize_state a ∧
      ((StateSerializer.mk buf true).batch_serialize_states xs).2 =
        ((StateSerializer.mk buf false).batch_serialize_states xs).2 ∧
      ((StateSerializer.mk buf true).batch_serialize_states xs).1.buffer =
        ((StateSerializer.mk buf false).batch_serialize_states xs).1.buffer ∧
      (StateSerializer.mk buf true).states_equal a b =
        (StateSerializer.mk buf false).states_equal a b ∧
      ((StateSerializer.mk buf true).get_state_size v).2 =
        ((StateSerializer.mk buf false).get_state_size v).2 ∧
      ((StateSerializer.mk buf true).get_state_size v).1.buffer =
        ((StateSerializer.mk buf false).get_state_size v).1.buffer := by
  intro buf d txt v xs a b
  refine ⟨rfl, rfl, rfl, rfl, ?_, ?_, rfl, ?_, ?_, rfl, ?_, ?_⟩
  · rw [serialize_state_eq, serialize_state_eq]
  · rw [serialize_state_eq, serialize_state_eq]
  · rw [batch_serialize_states_eq, batch_serialize_states_eq]
  · rw [batch_serialize_states_eq, batch_serialize_states_eq]
  · unfold StateSerializer.get_state_size
    cases from_value v <;> rfl
  · unfold StateSerializer.get_state_size
    cases from_value v <;> rfl

/-- C9: each standalone free function returns the same success value
and fails under exactly the same conditions as the corresponding
instance method invoked on a fresh instance (only the error-message
prefixes and the buffer reuse differ). -/
theorem claim_quick_wrappers_equiv_fresh_instance :
    ∀ (v : JsValue) (s : String) (c : Bool),
      (quick_serialize v).toOption = (MessageSerializer.new.serialize_message v).2.toOption ∧
      ((quick_serialize v).isOk ↔ (MessageSerializer.new.serialize_message v).2.isOk) ∧
      (quick_deserialize s).toOption = (MessageSerializer.new.deserialize_message s).toOption ∧
      ((quick_deserialize s).isOk ↔ (MessageSerializer.new.deserialize_message s).isOk) ∧
      (quick_serialize_state v).toOption =
        ((StateSerializer.new c).serialize_state v).2.toOption ∧
      ((quick_serialize_state v).isOk ↔ ((StateSerializer.new c).serialize_state v).2.isOk) ∧
      (quick_deserialize_state s).toOption =
        ((StateSerializer.new c).deserialize_state s).toOption ∧
      ((quick_deserialize_state s).isOk ↔ ((StateSerializer.new c).deserialize_state s).isOk) := by
  intro v s c
  refine ⟨?_, ?_, ?_, ?_, ?_, ?_, ?_, ?_⟩
  · unfold quick_serialize MessageSerializer.serialize_message
    cases from_value v <;> rfl
  · unfold quick_serialize MessageSerializer.serialize_message
    cases from_value v <;> exact Iff.rfl
  · unfold quick_deserialize MessageSerializer.deserialize_message
    cases from_str s <;> rfl
  · unfold quick_deserialize MessageSerializer.deserialize_message
    cases from_str s <;> exact Iff.rfl
  · unfold quick_serialize_state StateSerializer.serialize_state
    cases from_value v <;> rfl
  · unfold quick_serialize_state StateSerializer.serialize_state
    cases from_value v <;> exact Iff.rfl
  · unfold quick_deserialize_state StateSerializer.deserialize_state
    cases from_str s <;> rfl
  · unfold quick_deserialize_state StateSerializer.deserialize_state
    cases from_str s <;> exact Iff.rfl

/-- C2 counterexample: deserializing the JSON text `9007199254740993`
(the integer 2^53 + 1, which the parser represents exactly) does NOT
preserve the exact integer value: the bridge extracts the exact 64-bit
integer but then converts it to the host's double representation, which
rounds it to 9007199254740992. -/
theorem claim_number_roundtrip_counterexample :
    quick_deserialize "9007199254740993" = .ok (.number 9007199254740992) ∧
    (9007199254740992 : ℚ) ≠ (9007199254740993 : ℚ) :=
  ⟨rfl, by decide⟩

/-- C2 (amended): the Number bridging path tries exact 64-bit integer
extraction first, but the extracted integer is then converted to the
host's double representation, so exact preservation holds only up to
double precision: every integer extracted by `as_i64` with magnitude at
most 2^53 is preserved exactly, and 1.5 round-trips exactly through
serialize-then-deserialize; `9007199254740993` = 2^53 + 1 instead
deserializes to the nearest double, 9007199254740992. -/
theorem claim_number_roundtrip (n : JsonNumber) (i : Int) (h : n.as_i64 = some i)
    (hsmall : i.natAbs ≤ 2 ^ 53) :
    json_value_to_js (.number n) = .ok (.number (i : ℚ)) ∧
    quick_serialize (.number (mkRatF 3 2)) = .ok "1.5" ∧
    quick_deserialize "1.5" = .ok (.number (mkRatF 3 2)) ∧
    mkRatF 3 2 = (3 : ℚ) / 2 ∧
    quick_deserialize "9007199254740993" = .ok (.number ((9007199254740992 : Nat) : ℚ)) := by
  refine ⟨?_, rfl, rfl, by rw [mkRatF_eq_div]; norm_num, rfl⟩
  unfold json_value_to_js
  rw [h]
  dsimp only
  rw [roundIntF64_eq_self hsmall]

/-- Witness for C2 (amended) at the largest exactly representable
integer 2^53. -/
theorem claim_number_roundtrip_witness :
    (JsonNumber.posInt 9007199254740992).as_i64 = some 9007199254740992 ∧
    (9007199254740992 : Int).natAbs ≤ 2 ^ 53 ∧
    json_value_to_js (.number (.posInt 9007199254740992)) =
      .ok (.number ((9007199254740992 : Int) : ℚ)) ∧
    quick_deserialize "1.5" = .ok (.number (mkRatF 3 2)) :=
  have h := claim_number_roundtrip (.posInt 9007199254740992) 9007199254740992 rfl (by decide)
  ⟨rfl, by decide, h.1, h.2.2.1⟩

/-- C3 counterexample: a StateCodec write that does not go through the
instance buffer.  After `getStateSize` leaves `"5"` (length 1) in the
buffer, `serializeState` succeeds — a serialize-class write — yet
returns the instance completely unchanged: the buffer still holds
`"5"`, so the write neither went through the instance buffer nor began
with the buffer at length 0. -/
theorem claim_buffer_reuse_counterexample :
    ((StateSerializer.new false).get_state_size (.number 5)).1.buffer.data = "5" ∧
    ((StateSerializer.new false).get_state_size (.number 5)).1.buffer.len = 1 ∧
    ((((StateSerializer.new false).get_state_size (.number 5)).1.serialize_state
        (.boolean true)).2 = .ok "true") ∧
    ((((StateSerializer.new false).get_state_size (.number 5)).1.serialize_state
        (.boolean true)).1 = ((StateSerializer.new false).get_state_size (.number 5)).1) :=
  ⟨rfl, rfl, rfl, rfl⟩

/-- C3 (amended): the TextCodec serialize-class writes
(`serializeMessage`, hence `serializeCompact`, and `estimateSize`) and
StateCodec's `getStateSize` write through the instance's single
reusable buffer, cleared to length 0 immediately before writing, and no
operation other than the explicit `clearBuffer` reset ever shrinks any
buffer's capacity; but StateCodec's `serializeState` (and so
`batchSerializeStates`) bypasses the instance buffer entirely,
serializing into a fresh string and leaving the instance untouched. -/
theorem claim_buffer_reuse (s : MessageSerializer) (t : StateSerializer) (v : JsValue)
    (jv : JsonValue) (h : from_value v = .ok jv) :
    s.serialize_message v =
      (⟨s.buffer.clear.writeStr (toJsonString jv)⟩,
        .ok (s.buffer.clear.writeStr (toJsonString jv)).data) ∧
    s.estimate_size v =
      (⟨s.buffer.clear.writeStr (toJsonString jv)⟩,
        .ok (s.buffer.clear.writeStr (toJsonString jv)).len) ∧
    t.get_state_size v =
      (⟨t.buffer.clear.writeStr (toJsonString jv), t.compression_enabled⟩,
        .ok (t.buffer.clear.writeStr (toJsonString jv)).len) ∧
    t.serialize_state v = (t, .ok (toJsonString jv)) ∧
    s.buffer.cap ≤ (s.serialize_message v).1.buffer.cap ∧
    s.buffer.cap ≤ (s.estimate_size v).1.buffer.cap ∧
    s.buffer.cap ≤ (s.serialize_compact v).1.buffer.cap ∧
    s.buffer.cap ≤ (s.serialize_pretty v).1.buffer.cap ∧
    t.buffer.cap ≤ (t.get_state_size v).1.buffer.cap ∧
    (∀ xs, (t.batch_serialize_states xs).1 = t) := by
  refine ⟨?_, ?_, ?_, ?_, serialize_message_cap_mono s v, estimate_size_cap_mono s v,
    serialize_message_cap_mono s v, ?_, get_state_size_cap_mono t v, ?_⟩
  · unfold MessageSerializer.serialize_message
    rw [h]
  · unfold MessageSerializer.estimate_size
    rw [h]
  · unfold StateSerializer.get_state_size
    rw [h]
  · unfold StateSerializer.serialize_state
    rw [h]
  · rw [serialize_pretty_fst s v]
  · intro xs
    rw [batch_serialize_states_eq]

/-- Witness for C3 (amended) at a concrete host value on a fresh
instance pair. -/
theorem claim_buffer_reuse_witness :
    from_value (.boolean true) = .ok (.bool true) ∧
    (StateSerializer.new false).serialize_state (.boolean true) =
      (StateSerializer.new false, .ok "true") ∧
    MessageSerializer.new.serialize_message (.boolean true) =
      (⟨MessageSerializer.new.buffer.clear.writeStr (toJsonString (.bool true))⟩,
        .ok (MessageSerializer.new.buffer.clear.writeStr (toJsonString (.bool true))).data) :=
  have h := claim_buffer_reuse MessageSerializer.new (StateSerializer.new false)
    (.boolean true) (.bool true) rfl
  ⟨rfl, h.2.2.2.1, h.1⟩

/-- C6 counterexample: the claim asserts `clearBuffer()` /
`getBufferCapacity()` behavior with floor 8192 on StateCodec instances,
but the StateSerializer bindings (the `js_name` exports of its
`wasm_bindgen` impl block) contain neither operation — they exist only
on MessageSerializer — so the claim's StateCodec half talks about
operations that cannot be invoked. -/
theorem claim_clear_buffer_floor_counterexample :
    "clearBuffer" ∉ stateSerializerJsMethods ∧
    "getBufferCapacity" ∉ stateSerializerJsMethods ∧
    "clearBuffer" ∈ messageSerializerJsMethods ∧
    "getBufferCapacity" ∈ messageSerializerJsMethods := by
  decide

/-- C6 (amended): after `clearBuffer()` on a MessageSerializer whose
capacity is at least the 4096-byte floor (construction gives exactly
4096 and no operation ever shrinks it), the buffer length is 0 and
`getBufferCapacity()` returns exactly the 4096 floor — in particular
never less than it — and `clearBuffer` is the only operation of either
type that may reduce a buffer's capacity.  StateSerializer exposes no
`clearBuffer` or `getBufferCapacity`; its buffer starts at its 8192
floor and none of its operations ever shrinks it. -/
theorem claim_clear_buffer_floor (s : MessageSerializer) (h : 4096 ≤ s.buffer.cap) :
    s.clear_buffer.buffer.len = 0 ∧
    s.clear_buffer.get_buffer_capacity = 4096 ∧
    4096 ≤ s.clear_buffer.get_buffer_capacity ∧
    s.clear_buffer.buffer.cap ≤ s.buffer.cap ∧
    MessageSerializer.new.buffer.cap = 4096 ∧
    (∀ c, (StateSerializer.new c).buffer.cap = 8192) ∧
    (∀ v, s.buffer.cap ≤ (s.serialize_message v).1.buffer.cap ∧
          s.buffer.cap ≤ (s.estimate_size v).1.buffer.cap ∧
          s.buffer.cap ≤ (s.serialize_compact v).1.buffer.cap ∧
          s.buffer.cap ≤ (s.serialize_pretty v).1.buffer.cap) ∧
    (∀ (t : StateSerializer) (v : JsValue) (xs : List JsValue),
        t.buffer.cap ≤ (t.get_state_size v).1.buffer.cap ∧
        t.buffer.cap ≤ (t.serialize_state v).1.buffer.cap ∧
        t.buffer.cap ≤ (t.batch_serialize_states xs).1.buffer.cap) ∧
    "clearBuffer" ∉ stateSerializerJsMethods ∧
    "getBufferCapacity" ∉ stateSerializerJsMethods := by
  have hcap : s.clear_buffer.buffer.cap = min s.buffer.cap 4096 := by
    show max ("" : String).utf8ByteSize (min s.buffer.cap 4096) = min s.buffer.cap 4096
    rw [show ("" : String).utf8ByteSize = 0 from rfl]
    omega
  refine ⟨rfl, ?_, ?_, ?_, rfl, fun c => rfl, ?_, ?_, by decide, by decide⟩
  · show s.clear_buffer.buffer.cap = 4096
    omega
  · show 4096 ≤ s.clear_buffer.buffer.cap
    omega
  · omega
  · intro v
    exact ⟨serialize_message_cap_mono s v, estimate_size_cap_mono s v,
      serialize_message_cap_mono s v, by rw [serialize_pretty_fst s v]⟩
  · intro t v xs
    refine ⟨get_state_size_cap_mono t v, ?_, ?_⟩
    · rw [serialize_state_eq]
    · rw [batch_serialize_states_eq]

/-- Witness for C6 (amended) at a freshly constructed instance. -/
theorem claim_clear_buffer_floor_witness :
    4096 ≤ MessageSerializer.new.buffer.cap ∧
    MessageSerializer.new.clear_buffer.buffer.len = 0 ∧
    MessageSerializer.new.clear_buffer.get_buffer_capacity = 4096 :=
  have h := claim_clear_buffer_floor MessageSerializer.new (by decide)
  ⟨by decide, h.1, h.2.1⟩

/-- C10: `serializePretty` is side-effect-free with respect to the
instance: the instance (hence its buffer's contents, length, and
capacity) is exactly what it was before the call. -/
theorem claim_serialize_pretty_frame :
    ∀ (s : MessageSerializer) (v : JsValue),
      (s.serialize_pretty v).1 = s ∧
      (s.serialize_pretty v).1.buffer.data = s.buffer.data ∧
      (s.serialize_pretty v).1.buffer.len = s.buffer.len ∧
      (s.serialize_pretty v).1.buffer.cap = s.buffer.cap := by
  intro s v
  have h := serialize_pretty_fst s v
  exact ⟨h, by rw [h], by rw [h], by rw [h]⟩

/-- Witness for C5 at a fresh instance and a concrete host value. -/
theorem claim_estimate_size_is_serialize_length_witness :
    (MessageSerializer.new.estimate_size (.boolean true)).2.toOption =
      ((MessageSerializer.new.serialize_message (.boolean true)).2.toOption).map
        String.utf8ByteSize ∧
    ((MessageSerializer.new.estimate_size (.boolean true)).2.isOk ↔
      (MessageSerializer.new.serialize_message (.boolean true)).2.isOk) :=
  claim_estimate_size_is_serialize_length MessageSerializer.new (.boolean true)

/-- Witness for C7 at concrete texts. -/
theorem claim_states_equal_byte_identity_witness :
    ((StateSerializer.new false).states_equal "abc" "abc" = true ↔ ("abc" : String) = "abc") ∧
    (StateSerializer.new false).states_equal "abc" "abc" = true ∧
    (StateSerializer.new false).states_equal "\x7b\"a\":1,\"b\":2\x7d"
      "\x7b\"b\":2,\"a\":1\x7d" = false :=
  claim_states_equal_byte_identity (StateSerializer.new false) "abc" "abc"

/-- Witness for C8 at a concrete buffer, value, and texts. -/
theorem claim_compression_flag_inert_witness :
    (StateSerializer.mk ⟨"", 8192⟩ true).compress_buffer [7] = [7] ∧
    ((StateSerializer.mk ⟨"", 8192⟩ true).serialize_state (.null)).2 =
      ((StateSerializer.mk ⟨"", 8192⟩ false).serialize_state (.null)).2 :=
  have h := claim_compression_flag_inert ⟨"", 8192⟩ [7] "t" (.null) [] "a" "b"
  ⟨h.1, h.2.2.2.2.1⟩

/-- Witness for C9 at a concrete host value and text. -/
theorem claim_quick_wrappers_equiv_fresh_instance_witness :
    (quick_deserialize "null").toOption =
      (MessageSerializer.new.deserialize_message "null").toOption ∧
    (quick_serialize_state (.boolean false)).toOption =
      ((StateSerializer.new true).serialize_state (.boolean false)).2.toOption :=
  have h := claim_quick_wrappers_equiv_fresh_instance (.boolean false) "null" true
  ⟨h.2.2.1, h.2.2.2.2.1⟩

/-- Witness for C10 at a fresh instance and a concrete host value. -/
theorem claim_serialize_pretty_frame_witness :
    (MessageSerializer.new.serialize_pretty (.number 2)).1 = MessageSerializer.new :=
  (claim_serialize_pretty_frame MessageSerializer.new (.number 2)).1

end SwarmCodec
